import Mathlib

/-!
Shallow embedding of the `rust-netlink` protocol engine.

Machine integers are modelled as `Nat` with explicit `% 2^w` at the points
where the Rust code performs width-limited arithmetic (release-mode, i.e.
wrapping, semantics for overflowing `+`/`-`; the lossy `as` casts always
truncate).  Byte buffers are `List Nat` (each element standing for one `u8`,
hence `< 256` for buffers that arise from real Rust values).  Fallible Rust
functions returning `std::io::Result` are modelled with `Except String`;
paths that can `panic!` or hit a panicking slice operation are modelled with
`RustResult`, which has an explicit `panicked` constructor.
-/

/-- Result of running a piece of Rust code that may return `Ok`, return
`Err`, or panic (e.g. through an out-of-order slice index). -/
inductive RustResult (α : Type) where
  | ok : α → RustResult α
  | err : String → RustResult α
  | panicked : String → RustResult α
deriving DecidableEq, Repr

/-- Little-endian encoding of `n` into `w` bytes (the in-memory layout of the
fixed-width integer fields on a little-endian host, which is what the
`ptr::copy_nonoverlapping` / `ptr::read` pairs in the source transcribe). -/
def bytesOfNat : Nat → Nat → List Nat
  | 0, _ => []
  | w + 1, n => n % 256 :: bytesOfNat w (n / 256)

/-- Little-endian reading of a byte list as an unsigned integer. -/
def natOfBytesLE : List Nat → Nat
  | [] => 0
  | b :: rest => b + 256 * natOfBytesLE rest

/-- Rust slice `v[a..b]` (defined when `a ≤ b ≤ v.len()`; callers that can
violate `a ≤ b` are modelled with an explicit `panicked` branch). -/
def sliceList (v : List Nat) (a b : Nat) : List Nat :=
  (v.drop a).take (b - a)

/-- util::align from src/lib.rs:
`((len) + RTA_ALIGNTO - 1) & !(RTA_ALIGNTO - 1)` with `RTA_ALIGNTO = 4` on a
64-bit `usize`.  The wrapping add/sub compose to `(len + 3) mod 2^64`, and
`!3` on 64 bits is `2^64 - 4`. -/
def align (len : Nat) : Nat :=
  ((len + 3) % 2 ^ 64) &&& (2 ^ 64 - 4)

/-- Mathematical 4-byte round-up, used to state what `align` computes on
inputs that do not overflow the wrapping add. -/
def align4 (n : Nat) : Nat :=
  ((n + 3) / 4) * 4

/-- The netlink preamble header from src/proto/packet.rs
(`len:u32, typ:u16, flags:u16, seq:u32, pid:u32`, `repr(C)`, no padding). -/
structure NetlinkHeader where
  len : Nat
  typ : Nat
  flags : Nat
  seq : Nat
  pid : Nat
deriving DecidableEq, Repr

/-- `mem::size_of::<NetlinkHeader>()` = 16. -/
def NetlinkHeader.size : Nat := 16

/-- NetlinkHeader::from_bytes: errs when fewer than 16 bytes remain, else
transmutes the first 16 bytes into the five fields (little-endian host). -/
def NetlinkHeader.from_bytes (v : List Nat) : Except String NetlinkHeader :=
  if v.length < NetlinkHeader.size then
    Except.error "message too short"
  else
    Except.ok
      { len := natOfBytesLE (sliceList v 0 4)
        typ := natOfBytesLE (sliceList v 4 6)
        flags := natOfBytesLE (sliceList v 6 8)
        seq := natOfBytesLE (sliceList v 8 12)
        pid := natOfBytesLE (sliceList v 12 16) }

/-- NetlinkHeader::to_bytes: panics (`none`) when `len < 16`, else emits the
16 header bytes. -/
def NetlinkHeader.to_bytes (h : NetlinkHeader) : Option (List Nat) :=
  if h.len < NetlinkHeader.size then
    none
  else
    some (bytesOfNat 4 h.len ++ bytesOfNat 2 h.typ ++ bytesOfNat 2 h.flags ++
      bytesOfNat 4 h.seq ++ bytesOfNat 4 h.pid)

/-- The 16 bytes emitted for a header by the success branch of
`NetlinkHeader::to_bytes` (named for reuse in the message-split proofs). -/
def headerBytesOf (h : NetlinkHeader) : List Nat :=
  bytesOfNat 4 h.len ++ bytesOfNat 2 h.typ ++ bytesOfNat 2 h.flags ++
    bytesOfNat 4 h.seq ++ bytesOfNat 4 h.pid

/-- A single netlink message: header plus remaining payload bytes. -/
structure NetlinkMessage where
  header : NetlinkHeader
  data : List Nat
deriving DecidableEq, Repr

/-- NetlinkMessage::new: fresh message with `len` = header size, empty data. -/
def NetlinkMessage.new (typ flags : Nat) : NetlinkMessage :=
  { header := { len := NetlinkHeader.size, typ := typ, flags := flags, seq := 0, pid := 0 }
    data := [] }

/-- NetlinkMessage::one_from_bytes.  The final branch mirrors the Rust slice
`v[idx + header_size .. idx + header_len]`, which panics when its start
exceeds its end (declared length smaller than the header size). -/
def NetlinkMessage.one_from_bytes (v : List Nat) (idx : Nat) : RustResult NetlinkMessage :=
  if v.length < idx + NetlinkHeader.size then
    RustResult.err "message too short for header"
  else
    match NetlinkHeader.from_bytes (sliceList v idx (idx + NetlinkHeader.size)) with
    | Except.error e => RustResult.err e
    | Except.ok header =>
      if v.length < idx + header.len then
        RustResult.err "buffer too short for message"
      else if idx + header.len < idx + NetlinkHeader.size then
        RustResult.panicked "slice index starts after it ends"
      else
        RustResult.ok { header := header, data := sliceList v (idx + NetlinkHeader.size) (idx + header.len) }

/-- Loop body of NetlinkMessage::from_bytes, with fuel making the `while`
loop structurally recursive.  `from_bytes` supplies `v.length + 1` fuel,
which is never exhausted for realistic buffers: every continuing iteration
has `idx < v.length` and advances `idx` by the (non-wrapping, since
`idx + header.len ≤ v.length`) aligned message length, at least 16. -/
def NetlinkMessage.from_bytes_go (v : List Nat) : Nat → Nat → List NetlinkMessage → RustResult (List NetlinkMessage)
  | 0, _, _ => RustResult.panicked "fuel exhausted"
  | fuel + 1, idx, res =>
    if idx < v.length then
      match NetlinkMessage.one_from_bytes v idx with
      | RustResult.ok msg =>
        NetlinkMessage.from_bytes_go v fuel (align (idx + msg.header.len)) (res ++ [msg])
      | RustResult.err e => RustResult.err e
      | RustResult.panicked e => RustResult.panicked e
    else
      RustResult.ok res

/-- NetlinkMessage::from_bytes: split a buffer into back-to-back messages. -/
def NetlinkMessage.from_bytes (v : List Nat) : RustResult (List NetlinkMessage) :=
  NetlinkMessage.from_bytes_go v (v.length + 1) 0 []

/-- NetlinkMessage::add_data: append raw bytes plus zero padding to the next
4-byte boundary, and bump the header length by the aligned size truncated to
`u32` (wrapping `+=`). -/
def NetlinkMessage.add_data (m : NetlinkMessage) (d : List Nat) : NetlinkMessage :=
  let l := d.length
  let aligned_len := align l
  let padding := aligned_len - l
  { header := { m.header with len := (m.header.len + aligned_len % 2 ^ 32) % 2 ^ 32 }
    data := m.data ++ d ++ List.replicate padding 0 }

/-- NetlinkMessage::to_bytes: header bytes (panicking when `len < 16`)
followed by the payload. -/
def NetlinkMessage.to_bytes (m : NetlinkMessage) : Option (List Nat) :=
  match m.header.to_bytes with
  | none => none
  | some hb => some (hb ++ m.data)

/-- Messages reachable through the public construction path: built by
`NetlinkMessage::new` and thereafter modified only by `add_data`, with the
appended chunks small enough that neither the `usize` alignment nor the
`u32` length field wraps. -/
inductive NetlinkMessage.Built : NetlinkMessage → Prop where
  | base : ∀ typ flags, NetlinkMessage.Built (NetlinkMessage.new typ flags)
  | step : ∀ m d, NetlinkMessage.Built m → d.length + 3 < 2 ^ 64 →
      m.header.len + align d.length < 2 ^ 32 → NetlinkMessage.Built (m.add_data d)

/-- The rtattr TLV header from src/type_route/rtattr.rs (`len:u16, typ:u16`). -/
structure RtAttrHeader where
  len : Nat
  typ : Nat
deriving DecidableEq, Repr

/-- RtAttrHeader::size = 4. -/
def RtAttrHeader.size : Nat := 4

/-- RtAttrHeader::from_bytes: errs when fewer than 4 bytes remain, else
transmutes the first 4 bytes into the two fields (little-endian host). -/
def RtAttrHeader.from_bytes (v : List Nat) : Except String RtAttrHeader :=
  if v.length < RtAttrHeader.size then
    Except.error "message too short"
  else
    Except.ok
      { len := natOfBytesLE (sliceList v 0 2)
        typ := natOfBytesLE (sliceList v 2 4) }

/-- An rtattr: header plus value bytes. -/
structure RtAttr where
  header : RtAttrHeader
  data : List Nat
deriving DecidableEq, Repr

/-- RtAttr::new: `len = 0x4 + data.len() as u16` (truncating cast, wrapping
`u16` addition), value stored unpadded. -/
def RtAttr.new (typ : Nat) (data : List Nat) : RtAttr :=
  { header := { len := (4 + data.length % 2 ^ 16) % 2 ^ 16, typ := typ }
    data := data }

/-- RtAttr::add_data: append the serialized bytes plus zero padding to the
next 4-byte boundary, and bump `len` by the aligned size truncated to `u16`
(wrapping `+=`). -/
def RtAttr.add_data (a : RtAttr) (d : List Nat) : RtAttr :=
  let l := d.length
  let aligned_len := align l
  let padding := aligned_len - l
  { header := { len := (a.header.len + aligned_len % 2 ^ 16) % 2 ^ 16, typ := a.header.typ }
    data := a.data ++ d ++ List.replicate padding 0 }

/-- RtAttr::to_bytes: the 4 header bytes followed by the stored value bytes
(no padding is appended here). -/
def RtAttr.to_bytes (a : RtAttr) : List Nat :=
  bytesOfNat 2 a.header.len ++ bytesOfNat 2 a.header.typ ++ a.data

/-- RtAttr::one_from_bytes, with the same panicking-slice branch as the
message decoder for a declared length below the 4-byte header size. -/
def RtAttr.one_from_bytes (v : List Nat) (idx : Nat) : RustResult RtAttr :=
  if v.length < idx + RtAttrHeader.size then
    RustResult.err "message too short for rtattr header"
  else
    match RtAttrHeader.from_bytes (sliceList v idx (idx + RtAttrHeader.size)) with
    | Except.error e => RustResult.err e
    | Except.ok header =>
      if v.length < idx + header.len then
        RustResult.err "buffer too short for message"
      else if idx + header.len < idx + RtAttrHeader.size then
        RustResult.panicked "slice index starts after it ends"
      else
        RustResult.ok { header := header, data := sliceList v (idx + RtAttrHeader.size) (idx + header.len) }

/-- Loop body of RtAttr::from_bytes (fuel as for the message splitter). -/
def RtAttr.from_bytes_go (v : List Nat) : Nat → Nat → List RtAttr → RustResult (List RtAttr)
  | 0, _, _ => RustResult.panicked "fuel exhausted"
  | fuel + 1, idx, res =>
    if idx < v.length then
      match RtAttr.one_from_bytes v idx with
      | RustResult.ok attr =>
        RtAttr.from_bytes_go v fuel (align (idx + attr.header.len)) (res ++ [attr])
      | RustResult.err e => RustResult.err e
      | RustResult.panicked e => RustResult.panicked e
    else
      RustResult.ok res

/-- RtAttr::from_bytes: split a buffer into back-to-back attributes. -/
def RtAttr.from_bytes (v : List Nat) : RustResult (List RtAttr) :=
  RtAttr.from_bytes_go v (v.length + 1) 0 []

/-- Behavior of Rust std `CStr::from_bytes_with_nul`, which RtAttr::to_cstring
delegates to: locate the first nul byte; succeed exactly when it exists and is
the final byte, returning the bytes before it. -/
def cstrFromBytesWithNul (v : List Nat) : Except String (List Nat) :=
  let i := v.indexOf 0
  if i + 1 = v.length then Except.ok (v.take i) else Except.error "not a C string"

/-- RtAttr::to_cstring: `CStr::from_bytes_with_nul` on the value span, with
the error replaced by an invalid-data error. -/
def RtAttr.to_cstring (a : RtAttr) : Except String (List Nat) :=
  match cstrFromBytesWithNul a.data with
  | Except.ok s => Except.ok s
  | Except.error _ => Except.error "invalid interface name"

/-- libc::NLMSG_ERROR. -/
def NLMSG_ERROR : Nat := 2

/-- libc::NLMSG_DONE. -/
def NLMSG_DONE : Nat := 3

/-- libc::NLM_F_MULTI. -/
def NLM_F_MULTI : Nat := 2

/-- Reinterpret a `u32` bit pattern as an `i32` value. -/
def toSigned32 (n : Nat) : Int :=
  if n < 2 ^ 31 then (n : Int) else (n : Int) - 2 ^ 32

/-- Wrapping `i32` negation (`-(x)` wraps at `i32::MIN` in release mode). -/
def wrapNeg32 (x : Int) : Int :=
  if x = -(2 ^ 31) then x else -x

/-- Outcome of feeding a list of received messages through the validation
loop of NetlinkSocket::exec.  `pending` means the list was exhausted without
reaching a terminal frame (the real loop would block in another `recv`). -/
inductive ExecResult where
  | ok : List NetlinkMessage → ExecResult
  | errSeq : ExecResult
  | errPid : ExecResult
  | errShort : ExecResult
  | errOs : Int → ExecResult
  | pending : List NetlinkMessage → ExecResult
deriving DecidableEq, Repr

/-- The optional response-type filter of NetlinkSocket::exec. -/
def passesFilter (respTyp : Option Nat) (m : NetlinkMessage) : Bool :=
  match respTyp with
  | some t => m.header.typ == t
  | none => true

/-- The per-message validation/accumulation loop of NetlinkSocket::exec
(src/proto/conn.rs lines 158-223), processing received messages in order
against the request sequence number `seq` and the socket port id `pid`,
with accumulated output `out`. -/
def exec_process (seq pid : Nat) (respTyp : Option Nat) : List NetlinkMessage → List NetlinkMessage → ExecResult
  | out, [] => ExecResult.pending out
  | out, resp :: rest =>
    if resp.header.seq ≠ seq then ExecResult.errSeq
    else if resp.header.pid ≠ pid then ExecResult.errPid
    else if resp.header.typ = NLMSG_ERROR then
      if resp.data.length < 4 then ExecResult.errShort
      else
        let errno := natOfBytesLE (sliceList resp.data 0 4)
        if errno = 0 then ExecResult.ok out
        else ExecResult.errOs (wrapNeg32 (toSigned32 errno))
    else if resp.header.typ = NLMSG_DONE then ExecResult.ok out
    else if passesFilter respTyp resp = false then
      exec_process seq pid respTyp out rest
    else
      let out2 := out ++ [resp]
      if resp.header.flags &&& NLM_F_MULTI = 0 then ExecResult.ok out2
      else exec_process seq pid respTyp out2 rest

/-- A frame at which the exec loop terminates: an ack/error frame, a dump
terminator, or a message that passes the type filter and lacks the
multipart flag. -/
def isTerminal (respTyp : Option Nat) (m : NetlinkMessage) : Bool :=
  m.header.typ == NLMSG_ERROR || m.header.typ == NLMSG_DONE ||
    (passesFilter respTyp m && m.header.flags &&& NLM_F_MULTI == 0)

/-- Extend a byte list with zero bytes to the next 4-byte boundary (the
padding the message-split property applies between concatenated messages). -/
def padTo4 (l : List Nat) : List Nat :=
  l ++ List.replicate (align l.length - l.length) 0

/-! Helper lemmas -/

theorem land_mask_eq (m : Nat) (hm : m < 2 ^ 64) : m &&& (2 ^ 64 - 4) = (m / 4) * 4 := by
  have hmask : (2 : Nat) ^ 64 - 4 = ((2 : Nat) ^ 62 - 1) <<< 2 := by decide
  have key : m &&& (2 ^ 64 - 4) = (m >>> 2) <<< 2 := by
    apply Nat.eq_of_testBit_eq
    intro i
    rw [Nat.testBit_land, hmask, Nat.testBit_shiftLeft, Nat.testBit_shiftLeft,
      Nat.testBit_two_pow_sub_one, Nat.testBit_shiftRight]
    by_cases h2 : 2 ≤ i
    · by_cases h64 : i < 64
      · have : 2 + (i - 2) = i := by omega
        simp [h2, this, h64, show i - 2 < 62 by omega]
      · have hbit : m.testBit i = false :=
          Nat.testBit_lt_two_pow (lt_of_lt_of_le hm (Nat.pow_le_pow_right (by norm_num) (by omega)))
        have : 2 + (i - 2) = i := by omega
        simp [hbit, this]
    · simp [show ¬ (i ≥ 2) by omega]
  rw [key, Nat.shiftRight_eq_div_pow, Nat.shiftLeft_eq]

theorem align_eq_align4 (n : Nat) (h : n + 3 < 2 ^ 64) : align n = align4 n := by
  unfold align align4
  rw [Nat.mod_eq_of_lt h, land_mask_eq _ h]

theorem align_le_max (n : Nat) (h : n + 3 < 2 ^ 64) : align n + 3 < 2 ^ 64 := by
  rw [align_eq_align4 n h]
  unfold align4
  omega

theorem bytesOfNat_length (w n : Nat) : (bytesOfNat w n).length = w := by
  induction w generalizing n with
  | zero => rfl
  | succ w ih => simp [bytesOfNat, ih]

theorem natOfBytesLE_bytesOfNat (w n : Nat) : natOfBytesLE (bytesOfNat w n) = n % 2 ^ (8 * w) := by
  induction w generalizing n with
  | zero => simp [bytesOfNat, natOfBytesLE, Nat.mod_one]
  | succ w ih =>
    have hpow : (2 : Nat) ^ (8 * (w + 1)) = 256 * 2 ^ (8 * w) := by
      rw [Nat.mul_add, pow_add, Nat.mul_comm]
      norm_num
    simp only [bytesOfNat, natOfBytesLE, ih, hpow, Nat.mod_mul]

theorem RtAttr.add_data_header_len_u16 (a : RtAttr) (d : List Nat) :
    (a.add_data d).header.len = (a.header.len + align d.length % 2 ^ 16) % 2 ^ 16 := rfl

theorem NetlinkMessage.add_data_header_len_u32 (m : NetlinkMessage) (d : List Nat) :
    (m.add_data d).header.len = (m.header.len + align d.length % 2 ^ 32) % 2 ^ 32 := rfl

/-- Claim C8 (amended): on every input for which the wrapping `usize`
addition inside `align` does not overflow (`n + 3 < 2^64`), `align` rounds
up to a multiple of 4: `n ≤ align n`, `align n < n + 4`, `align n % 4 = 0`,
and `align` is idempotent. -/
theorem claim_C8 (n : Nat) (h : n + 3 < 2 ^ 64) :
    n ≤ align n ∧ align n < n + 4 ∧ align n % 4 = 0 ∧ align (align n) = align n := by
  have h1 := align_eq_align4 n h
  have h3 : align4 n + 3 < 2 ^ 64 := by unfold align4; omega
  refine ⟨?_, ?_, ?_, ?_⟩
  · rw [h1]; unfold align4; omega
  · rw [h1]; unfold align4; omega
  · rw [h1]; unfold align4; omega
  · rw [h1, align_eq_align4 _ h3]; unfold align4; omega

theorem claim_C8_witness :
    (5 : Nat) + 3 < 2 ^ 64 ∧
      (5 ≤ align 5 ∧ align 5 < 5 + 4 ∧ align 5 % 4 = 0 ∧ align (align 5) = align 5) :=
  ⟨by decide, claim_C8 5 (by decide)⟩

/-- Claim C8 counterexample: at the top of the `usize` range the wrapping
addition makes `align` return 0, violating `align n ≥ n`. -/
theorem claim_C8_counterexample : ¬ ((2 : Nat) ^ 64 - 1 ≤ align (2 ^ 64 - 1)) := by decide

/-- Claim C3 (amended): `RtAttr::new` followed by `to_bytes` produces the
4-byte attribute header whose stored length field is `4 + |value|` (provided
that fits `u16`), followed by the value bytes, with NO padding appended: the
serialized byte string has total length `4 + |value|`, not
`align (4 + |value|)`.  Padding to the 4-byte boundary is only applied by the
`add_data` append paths. -/
theorem claim_C3 (typ : Nat) (value : List Nat) (h : 4 + value.length < 2 ^ 16) :
    (RtAttr.new typ value).header.len = 4 + value.length ∧
    (RtAttr.new typ value).to_bytes =
      bytesOfNat 2 (4 + value.length) ++ bytesOfNat 2 typ ++ value ∧
    ((RtAttr.new typ value).to_bytes).length = 4 + value.length := by
  have hp : (2 : Nat) ^ 16 = 65536 := by norm_num
  rw [hp] at h
  have hlen : (RtAttr.new typ value).header.len = 4 + value.length := by
    simp only [RtAttr.new, hp]
    omega
  refine ⟨hlen, ?_, ?_⟩
  · show bytesOfNat 2 (RtAttr.new typ value).header.len ++ bytesOfNat 2 typ ++ value =
      bytesOfNat 2 (4 + value.length) ++ bytesOfNat 2 typ ++ value
    rw [hlen]
  · show (bytesOfNat 2 (RtAttr.new typ value).header.len ++ bytesOfNat 2 typ ++ value).length =
      4 + value.length
    simp [bytesOfNat_length]
    omega

theorem claim_C3_witness :
    (4 : Nat) + ([9] : List Nat).length < 2 ^ 16 ∧
      ((RtAttr.new 1 [9]).header.len = 4 + ([9] : List Nat).length ∧
        (RtAttr.new 1 [9]).to_bytes =
          bytesOfNat 2 (4 + ([9] : List Nat).length) ++ bytesOfNat 2 1 ++ [9] ∧
        ((RtAttr.new 1 [9]).to_bytes).length = 4 + ([9] : List Nat).length) :=
  ⟨by decide, claim_C3 1 [9] (by decide)⟩

/-- Claim C3 counterexample: with a 3-byte value the serialization is 7 bytes
long and carries no trailing padding byte, while the claim demands total
length `align (4 + 3) = 8`. -/
theorem claim_C3_counterexample :
    (RtAttr.new 1 [1, 2, 3]).to_bytes = [7, 0, 1, 0, 1, 2, 3] ∧
      ¬ ((RtAttr.new 1 [1, 2, 3]).to_bytes.length = align (4 + 3)) := by decide

/-- Claim C2: the decoders do NOT always return a result on malformed input.
When the declared length field is smaller than the header size but the buffer
is long enough to pass both explicit checks, the data slice
`v[idx+header_size .. idx+header_len]` has its start beyond its end and the
code panics.  This theorem evaluates the decoders at such inputs: a 16-byte
all-zero buffer (message `len` field 0) and a 4-byte all-zero buffer
(attribute `len` field 0). -/
theorem claim_C2_panics :
    NetlinkMessage.one_from_bytes (List.replicate 16 0) 0 =
        RustResult.panicked "slice index starts after it ends" ∧
      RtAttr.one_from_bytes (List.replicate 4 0) 0 =
        RustResult.panicked "slice index starts after it ends" ∧
      NetlinkMessage.from_bytes (List.replicate 16 0) =
        RustResult.panicked "slice index starts after it ends" ∧
      RtAttr.from_bytes (List.replicate 4 0) =
        RustResult.panicked "slice index starts after it ends" := by decide

/-- Claim C6 (amended): appending `d` via `add_data` leaves the payload equal
to the old payload followed by `d` followed by `align |d| - |d|` zero bytes,
and — provided the aligned size and the bumped length field do not overflow
the `u16`/`u32` length field — increases the length field by exactly
`align |d|`.  The concrete attribute chain of the claim (4-byte, 6-byte, then
3-byte appends onto an empty attribute) is reproduced byte for byte. -/
theorem claim_C6 :
    (∀ (m : NetlinkMessage) (d : List Nat),
        (m.add_data d).data = m.data ++ d ++ List.replicate (align d.length - d.length) 0 ∧
        (m.header.len + align d.length < 2 ^ 32 →
          (m.add_data d).header.len = m.header.len + align d.length)) ∧
    (∀ (a : RtAttr) (d : List Nat),
        (a.add_data d).data = a.data ++ d ++ List.replicate (align d.length - d.length) 0 ∧
        (a.header.len + align d.length < 2 ^ 16 →
          (a.add_data d).header.len = a.header.len + align d.length)) ∧
    (((RtAttr.new 1 []).add_data [18, 52, 86, 120]).header.len = 8 ∧
      ((RtAttr.new 1 []).add_data [18, 52, 86, 120]).data = [18, 52, 86, 120]) ∧
    ((((RtAttr.new 1 []).add_data [18, 52, 86, 120]).add_data [1, 2, 3, 4, 5, 6]).header.len = 16 ∧
      (((RtAttr.new 1 []).add_data [18, 52, 86, 120]).add_data [1, 2, 3, 4, 5, 6]).data =
        [18, 52, 86, 120, 1, 2, 3, 4, 5, 6, 0, 0]) ∧
    (((((RtAttr.new 1 []).add_data [18, 52, 86, 120]).add_data [1, 2, 3, 4, 5, 6]).add_data
          [7, 8, 9]).to_bytes =
        [20, 0, 1, 0, 18, 52, 86, 120, 1, 2, 3, 4, 5, 6, 0, 0, 7, 8, 9, 0] ∧
      ((((RtAttr.new 1 []).add_data [18, 52, 86, 120]).add_data [1, 2, 3, 4, 5, 6]).add_data
          [7, 8, 9]).to_bytes.length = 20) := by
  have hp32 : (2 : Nat) ^ 32 = 4294967296 := by norm_num
  have hp16 : (2 : Nat) ^ 16 = 65536 := by norm_num
  refine ⟨?_, ?_, by decide, by decide, by decide⟩
  · intro m d
    refine ⟨rfl, fun hlt => ?_⟩
    show (m.header.len + align d.length % 2 ^ 32) % 2 ^ 32 = m.header.len + align d.length
    rw [hp32] at hlt ⊢
    omega
  · intro a d
    refine ⟨rfl, fun hlt => ?_⟩
    show (a.header.len + align d.length % 2 ^ 16) % 2 ^ 16 = a.header.len + align d.length
    rw [hp16] at hlt ⊢
    omega

theorem claim_C6_witness :
    ((NetlinkMessage.new 5 6).header.len + align ([1, 2, 3] : List Nat).length < 2 ^ 32) ∧
      (((NetlinkMessage.new 5 6).add_data [1, 2, 3]).data =
          (NetlinkMessage.new 5 6).data ++ [1, 2, 3] ++
            List.replicate (align ([1, 2, 3] : List Nat).length - 3) 0 ∧
        ((NetlinkMessage.new 5 6).add_data [1, 2, 3]).header.len =
          (NetlinkMessage.new 5 6).header.len + align ([1, 2, 3] : List Nat).length) :=
  ⟨by decide,
    ⟨(claim_C6.1 (NetlinkMessage.new 5 6) [1, 2, 3]).1,
      (claim_C6.1 (NetlinkMessage.new 5 6) [1, 2, 3]).2 (by decide)⟩⟩

/-- Claim C6 counterexample: appending a 65533-byte value to a fresh empty
attribute increases the `u16` length field by `align 65533 = 65536` truncated
to 0, not by `align |d|`: the field stays 4 while the claim demands 65540. -/
theorem claim_C6_counterexample :
    ¬ (((RtAttr.new 1 []).add_data (List.replicate 65533 0)).header.len =
        (RtAttr.new 1 []).header.len + align (List.replicate (65533 : Nat) (0 : Nat)).length) := by
  intro hEq
  rw [RtAttr.add_data_header_len_u16, List.length_replicate, (by decide : align 65533 = 65536),
    (by decide : (RtAttr.new 1 []).header.len = 4)] at hEq
  norm_num at hEq

theorem indexOf_zero_iff (l : List Nat) :
    l.indexOf 0 + 1 = l.length ↔ (l.getLast? = some 0 ∧ ¬ 0 ∈ l.dropLast) := by
  induction l with
  | nil => simp
  | cons b t ih =>
    by_cases hb : b = 0
    · subst hb
      rw [List.indexOf_cons_self]
      cases t with
      | nil => simp
      | cons c u =>
        rw [List.getLast?_cons_cons, List.dropLast_cons₂]
        simp only [List.length_cons, List.mem_cons]
        constructor
        · intro h; omega
        · intro ⟨_, hmem⟩
          exact absurd (Or.inl trivial) hmem
    · rw [List.indexOf_cons_ne _ (fun h => hb h)]
      cases t with
      | nil =>
        simp only [List.indexOf_nil, List.length_cons, List.length_nil, List.dropLast_single,
          List.getLast?_singleton]
        constructor
        · intro h; omega
        · intro ⟨h0, _⟩
          exact absurd (Option.some_injective _ h0) hb
      | cons c u =>
        rw [List.getLast?_cons_cons, List.dropLast_cons₂]
        simp only [List.length_cons, List.mem_cons, Nat.succ_eq_add_one] at ih ⊢
        constructor
        · intro h
          have := ih.mp (by omega)
          refine ⟨this.1, ?_⟩
          intro hmem
          rcases hmem with h1 | h2
          · exact hb h1.symm
          · exact this.2 h2
        · intro ⟨h1, h2⟩
          have := ih.mpr ⟨h1, fun hm => h2 (Or.inr hm)⟩
          omega

/-- Claim C9 (amended): `to_cstring` succeeds exactly when the value span is
nonempty, its LAST byte is nul, and no earlier byte is nul; in that case it
returns the value without the trailing terminator.  In every other case —
including values that do contain a terminating nul but also an interior nul,
or bytes after the first nul — it fails with the invalid-data error. -/
theorem claim_C9 (a : RtAttr) :
    ((∃ s, a.to_cstring = Except.ok s) ↔ (a.data.getLast? = some 0 ∧ ¬ 0 ∈ a.data.dropLast)) ∧
      (∀ s, a.to_cstring = Except.ok s → s = a.data.dropLast) ∧
      (¬ (a.data.getLast? = some 0 ∧ ¬ 0 ∈ a.data.dropLast) →
        a.to_cstring = Except.error "invalid interface name") := by
  have hkey := indexOf_zero_iff a.data
  by_cases h : a.data.indexOf 0 + 1 = a.data.length
  · have hok : a.to_cstring = Except.ok (a.data.take (a.data.indexOf 0)) := by
      unfold RtAttr.to_cstring cstrFromBytesWithNul
      simp only [h, if_pos]
    have htake : a.data.take (a.data.indexOf 0) = a.data.dropLast := by
      rw [List.dropLast_eq_take]
      congr 1
      omega
    refine ⟨⟨fun _ => hkey.mp h, fun _ => ⟨_, hok⟩⟩, ?_, fun hneg => absurd (hkey.mp h) hneg⟩
    intro s hs
    rw [hok] at hs
    injection hs with hs2
    rw [← hs2, htake]
  · have herr : a.to_cstring = Except.error "invalid interface name" := by
      unfold RtAttr.to_cstring cstrFromBytesWithNul
      simp only [h, if_false, if_neg, not_false_iff]
    refine ⟨⟨?_, fun hrhs => absurd (hkey.mpr hrhs) h⟩, ?_, fun _ => herr⟩
    · intro ⟨s, hs⟩
      rw [herr] at hs
      cases hs
    · intro s hs
      rw [herr] at hs
      cases hs

theorem claim_C9_witness :
    ((⟨⟨9, 1⟩, [104, 105, 0]⟩ : RtAttr).data.getLast? = some 0 ∧
        ¬ 0 ∈ (⟨⟨9, 1⟩, [104, 105, 0]⟩ : RtAttr).data.dropLast) ∧
      (∃ s, (⟨⟨9, 1⟩, [104, 105, 0]⟩ : RtAttr).to_cstring = Except.ok s) :=
  ⟨by decide, (claim_C9 ⟨⟨9, 1⟩, [104, 105, 0]⟩).1.mpr (by decide)⟩

/-- Claim C9 counterexample: the value `[65, 0, 66, 0]` carries a terminating
nul byte (its last byte is nul), yet `to_cstring` fails because of the
interior nul at index 1 — refuting "whenever a terminating nul byte is
present, it succeeds". -/
theorem claim_C9_counterexample :
    (⟨⟨8, 1⟩, [65, 0, 66, 0]⟩ : RtAttr).data.getLast? = some 0 ∧
      (⟨⟨8, 1⟩, [65, 0, 66, 0]⟩ : RtAttr).to_cstring =
        Except.error "invalid interface name" := ⟨rfl, rfl⟩

theorem take_append_of_length {A : List Nat} (L : List Nat) {k : Nat} (hA : A.length = k) :
    (A ++ L).take k = A := by
  rw [← hA, List.take_left]

theorem drop_append_of_length {A : List Nat} (L : List Nat) {k : Nat} (hA : A.length = k) :
    (A ++ L).drop k = L := by
  rw [← hA, List.drop_left]

theorem natOfBytesLE_bytesOfNat_self (w n : Nat) (h : n < 2 ^ (8 * w)) :
    natOfBytesLE (bytesOfNat w n) = n := by
  rw [natOfBytesLE_bytesOfNat, Nat.mod_eq_of_lt h]

theorem NetlinkHeader.from_bytes_chunks (A B C D E : List Nat)
    (hA : A.length = 4) (hB : B.length = 2) (hC : C.length = 2) (hD : D.length = 4)
    (hE : E.length = 4) :
    NetlinkHeader.from_bytes (A ++ B ++ C ++ D ++ E) =
      Except.ok ⟨natOfBytesLE A, natOfBytesLE B, natOfBytesLE C, natOfBytesLE D, natOfBytesLE E⟩ := by
  have hacc : A ++ B ++ C ++ D ++ E = A ++ (B ++ (C ++ (D ++ E))) := by
    simp [List.append_assoc]
  rw [hacc]
  set v := A ++ (B ++ (C ++ (D ++ E))) with hv
  have hlen : v.length = 16 := by simp [hv, hA, hB, hC, hD, hE]
  have hd4 : v.drop 4 = B ++ (C ++ (D ++ E)) := drop_append_of_length _ hA
  have hd6 : v.drop 6 = C ++ (D ++ E) := by
    have : v.drop 6 = (v.drop 4).drop 2 := by rw [List.drop_drop]
    rw [this, hd4, drop_append_of_length _ hB]
  have hd8 : v.drop 8 = D ++ E := by
    have : v.drop 8 = (v.drop 6).drop 2 := by rw [List.drop_drop]
    rw [this, hd6, drop_append_of_length _ hC]
  have hd12 : v.drop 12 = E := by
    have : v.drop 12 = (v.drop 8).drop 4 := by rw [List.drop_drop]
    rw [this, hd8, drop_append_of_length _ hD]
  have h1 : sliceList v 0 4 = A := by
    show (v.drop 0).take (4 - 0) = A
    rw [List.drop_zero]
    exact take_append_of_length _ hA
  have h2 : sliceList v 4 6 = B := by
    show (v.drop 4).take (6 - 4) = B
    rw [hd4]
    exact take_append_of_length _ hB
  have h3 : sliceList v 6 8 = C := by
    show (v.drop 6).take (8 - 6) = C
    rw [hd6]
    exact take_append_of_length _ hC
  have h4 : sliceList v 8 12 = D := by
    show (v.drop 8).take (12 - 8) = D
    rw [hd8]
    exact take_append_of_length _ hD
  have h5 : sliceList v 12 16 = E := by
    show (v.drop 12).take (16 - 12) = E
    rw [hd12]
    exact (by rw [← hE, List.take_length] : E.take 4 = E)
  unfold NetlinkHeader.from_bytes
  rw [hlen, h1, h2, h3, h4, h5]
  rfl

/-- Claim C4 (amended): for every header whose `len` field is at least the
16-byte header size (the precondition `to_bytes` asserts) and whose fields
are in range of their declared widths, encoding with `to_bytes` and decoding
with `from_bytes` restores the header field for field. -/
theorem claim_C4 (h : NetlinkHeader) (h16 : NetlinkHeader.size ≤ h.len)
    (hlen : h.len < 2 ^ 32) (htyp : h.typ < 2 ^ 16) (hflags : h.flags < 2 ^ 16)
    (hseq : h.seq < 2 ^ 32) (hpid : h.pid < 2 ^ 32) :
    ∃ b, h.to_bytes = some b ∧ NetlinkHeader.from_bytes b = Except.ok h := by
  refine ⟨bytesOfNat 4 h.len ++ bytesOfNat 2 h.typ ++ bytesOfNat 2 h.flags ++
    bytesOfNat 4 h.seq ++ bytesOfNat 4 h.pid, ?_, ?_⟩
  · unfold NetlinkHeader.to_bytes
    rw [if_neg (by omega)]
  · rw [NetlinkHeader.from_bytes_chunks _ _ _ _ _ (bytesOfNat_length 4 h.len)
      (bytesOfNat_length 2 h.typ) (bytesOfNat_length 2 h.flags) (bytesOfNat_length 4 h.seq)
      (bytesOfNat_length 4 h.pid)]
    rw [natOfBytesLE_bytesOfNat_self 4 h.len (by norm_num at hlen ⊢; omega),
      natOfBytesLE_bytesOfNat_self 2 h.typ (by norm_num at htyp ⊢; omega),
      natOfBytesLE_bytesOfNat_self 2 h.flags (by norm_num at hflags ⊢; omega),
      natOfBytesLE_bytesOfNat_self 4 h.seq (by norm_num at hseq ⊢; omega),
      natOfBytesLE_bytesOfNat_self 4 h.pid (by norm_num at hpid ⊢; omega)]

theorem claim_C4_witness :
    NetlinkHeader.size ≤ (16 : Nat) ∧
      (∃ b, (NetlinkHeader.mk 16 1 2 3 4).to_bytes = some b ∧
        NetlinkHeader.from_bytes b = Except.ok (NetlinkHeader.mk 16 1 2 3 4)) :=
  ⟨by decide,
    claim_C4 ⟨16, 1, 2, 3, 4⟩ (by decide) (by norm_num) (by norm_num) (by norm_num)
      (by norm_num) (by norm_num)⟩

/-- Claim C4 counterexample: with all five fields 0 (an arbitrary field
assignment permitted by the claim), `to_bytes` hits the
`panic!("invalid message length")` guard and produces no bytes at all, so no
round-trip exists. -/
theorem claim_C4_counterexample :
    ¬ ∃ b, (NetlinkHeader.mk 0 0 0 0 0).to_bytes = some b ∧
      NetlinkHeader.from_bytes b = Except.ok (NetlinkHeader.mk 0 0 0 0 0) := by
  intro ⟨b, hb, _⟩
  rw [(by decide : (NetlinkHeader.mk 0 0 0 0 0).to_bytes = none)] at hb
  cases hb

/-- Claim C7 (amended): a validated ack frame with at least 4 payload bytes
whose leading 4 bytes decode (native byte order) to a non-zero signed value
`e` terminates the transaction with an OS-error failure whose code is the
WRAPPING NEGATION `-e` of that value — which equals the magnitude `|e|`
exactly when `e` is negative (the kernel's convention), but is `-e`, not
`|e|`, for positive `e`. -/
theorem claim_C7 (seq pid : Nat) (respTyp : Option Nat) (out rest : List NetlinkMessage)
    (t : NetlinkMessage) (hseq : t.header.seq = seq) (hpid : t.header.pid = pid)
    (htyp : t.header.typ = NLMSG_ERROR) (hlen4 : 4 ≤ t.data.length)
    (hnz : natOfBytesLE (sliceList t.data 0 4) ≠ 0) :
    exec_process seq pid respTyp out (t :: rest) =
        ExecResult.errOs (wrapNeg32 (toSigned32 (natOfBytesLE (sliceList t.data 0 4)))) ∧
      (toSigned32 (natOfBytesLE (sliceList t.data 0 4)) < 0 →
        -(2 ^ 31) < toSigned32 (natOfBytesLE (sliceList t.data 0 4)) →
        wrapNeg32 (toSigned32 (natOfBytesLE (sliceList t.data 0 4))) =
          ((toSigned32 (natOfBytesLE (sliceList t.data 0 4))).natAbs : Int)) := by
  constructor
  · simp only [exec_process]
    rw [if_neg (by simp [hseq]), if_neg (by simp [hpid]), if_pos htyp,
      if_neg (by omega), if_neg hnz]
  · intro hneg hmin
    rw [wrapNeg32, if_neg (by omega)]
    omega

theorem claim_C7_witness :
    (4 ≤ (([254, 255, 255, 255] : List Nat)).length ∧
        natOfBytesLE (sliceList [254, 255, 255, 255] 0 4) ≠ 0) ∧
      (exec_process 9 7 none [] [⟨⟨20, 2, 0, 9, 7⟩, [254, 255, 255, 255]⟩] =
          ExecResult.errOs (wrapNeg32 (toSigned32 (natOfBytesLE (sliceList [254, 255, 255, 255] 0 4)))) ∧
        (toSigned32 (natOfBytesLE (sliceList [254, 255, 255, 255] 0 4)) < 0 →
          -(2 ^ 31) < toSigned32 (natOfBytesLE (sliceList [254, 255, 255, 255] 0 4)) →
          wrapNeg32 (toSigned32 (natOfBytesLE (sliceList [254, 255, 255, 255] 0 4))) =
            ((toSigned32 (natOfBytesLE (sliceList [254, 255, 255, 255] 0 4))).natAbs : Int))) :=
  ⟨⟨by decide, by decide⟩,
    claim_C7 9 7 none [] [] ⟨⟨20, 2, 0, 9, 7⟩, [254, 255, 255, 255]⟩ rfl rfl rfl
      (by decide) (by decide)⟩

/-- Claim C7 counterexample: an ack frame whose payload decodes to the
positive signed value `e = 5` terminates with OS error code `-5`, not the
magnitude `|e| = 5` that the claim demands. -/
theorem claim_C7_counterexample :
    exec_process 0 0 none [] [⟨⟨20, 2, 0, 0, 0⟩, [5, 0, 0, 0]⟩] ≠
      ExecResult.errOs ((toSigned32 (natOfBytesLE (sliceList [5, 0, 0, 0] 0 4))).natAbs : Int) := by
  decide


theorem exec_process_append (seq pid : Nat) (respTyp : Option Nat)
    (pre : List NetlinkMessage) :
    ∀ (l out : List NetlinkMessage),
      (∀ m ∈ pre, m.header.seq = seq) → (∀ m ∈ pre, m.header.pid = pid) →
      (∀ m ∈ pre, isTerminal respTyp m = false) →
      exec_process seq pid respTyp out (pre ++ l) =
        exec_process seq pid respTyp (out ++ pre.filter (passesFilter respTyp)) l := by
  induction pre with
  | nil => intro l out _ _ _; simp
  | cons m pre ih =>
    intro l out hseq hpid hterm
    have hm_seq : m.header.seq = seq := hseq m (List.mem_cons_self m pre)
    have hm_pid : m.header.pid = pid := hpid m (List.mem_cons_self m pre)
    have hm_term := hterm m (List.mem_cons_self m pre)
    simp only [isTerminal, Bool.or_eq_false_iff, beq_eq_false_iff_ne, ne_eq,
      Bool.and_eq_false_iff] at hm_term
    obtain ⟨⟨hm_err, hm_done⟩, hm_last⟩ := hm_term
    have htail_seq : ∀ x ∈ pre, x.header.seq = seq := fun x hx => hseq x (List.mem_cons_of_mem m hx)
    have htail_pid : ∀ x ∈ pre, x.header.pid = pid := fun x hx => hpid x (List.mem_cons_of_mem m hx)
    have htail_term : ∀ x ∈ pre, isTerminal respTyp x = false :=
      fun x hx => hterm x (List.mem_cons_of_mem m hx)
    show exec_process seq pid respTyp out (m :: (pre ++ l)) = _
    simp only [exec_process]
    rw [if_neg (by simp [hm_seq]), if_neg (by simp [hm_pid]), if_neg hm_err, if_neg hm_done]
    rcases Bool.eq_false_or_eq_true (passesFilter respTyp m) with hpass | hpass
    · have hmu : ¬ m.header.flags &&& NLM_F_MULTI = 0 := by
        rcases hm_last with hskip | hmu
        · rw [hpass] at hskip; cases hskip
        · exact hmu
      rw [if_neg (by simp [hpass]), if_neg hmu,
        ih l (out ++ [m]) htail_seq htail_pid htail_term]
      congr 1
      simp [List.filter_cons, hpass]
    · rw [if_pos hpass, ih l out htail_seq htail_pid htail_term]
      congr 1
      simp [List.filter_cons, hpass]

/-- Claim C1: in a run of the exec receive loop in which every received
message carries the request sequence number and the session port id, the
transaction ends at the first terminal frame `t` (all messages before it
non-terminal): (a) an ack frame (type NLMSG_ERROR) whose leading 4 payload
bytes decode to 0 ends it successfully with the previously accumulated
messages, the ack excluded; (b) an ack frame with a non-zero code ends it
with the mapped OS-error failure; (c) a dump terminator (NLMSG_DONE) ends it
successfully with the accumulated messages, the terminator excluded; (d) a
message passing the optional type filter without the multipart flag ends it
immediately with that message as the last element of the result. -/
theorem claim_C1 (seq pid : Nat) (respTyp : Option Nat)
    (pre rest : List NetlinkMessage) (t : NetlinkMessage)
    (hseq : ∀ m ∈ pre, m.header.seq = seq) (hpid : ∀ m ∈ pre, m.header.pid = pid)
    (htseq : t.header.seq = seq) (htpid : t.header.pid = pid)
    (hterm : ∀ m ∈ pre, isTerminal respTyp m = false) :
    (t.header.typ = NLMSG_ERROR → 4 ≤ t.data.length →
      natOfBytesLE (sliceList t.data 0 4) = 0 →
      exec_process seq pid respTyp [] (pre ++ t :: rest) =
        ExecResult.ok (pre.filter (passesFilter respTyp))) ∧
    (t.header.typ = NLMSG_ERROR → 4 ≤ t.data.length →
      natOfBytesLE (sliceList t.data 0 4) ≠ 0 →
      exec_process seq pid respTyp [] (pre ++ t :: rest) =
        ExecResult.errOs (wrapNeg32 (toSigned32 (natOfBytesLE (sliceList t.data 0 4))))) ∧
    (t.header.typ = NLMSG_DONE →
      exec_process seq pid respTyp [] (pre ++ t :: rest) =
        ExecResult.ok (pre.filter (passesFilter respTyp))) ∧
    (t.header.typ ≠ NLMSG_ERROR → t.header.typ ≠ NLMSG_DONE →
      passesFilter respTyp t = true → t.header.flags &&& NLM_F_MULTI = 0 →
      exec_process seq pid respTyp [] (pre ++ t :: rest) =
        ExecResult.ok (pre.filter (passesFilter respTyp) ++ [t])) := by
  have hrun : exec_process seq pid respTyp [] (pre ++ t :: rest) =
      exec_process seq pid respTyp (pre.filter (passesFilter respTyp)) (t :: rest) := by
    rw [exec_process_append seq pid respTyp pre (t :: rest) [] hseq hpid hterm,
      List.nil_append]
  refine ⟨?_, ?_, ?_, ?_⟩
  · intro htyp hlen4 hz
    rw [hrun]
    simp only [exec_process]
    rw [if_neg (by simp [htseq]), if_neg (by simp [htpid]), if_pos htyp,
      if_neg (by omega), if_pos hz]
  · intro htyp hlen4 hnz
    rw [hrun]
    simp only [exec_process]
    rw [if_neg (by simp [htseq]), if_neg (by simp [htpid]), if_pos htyp,
      if_neg (by omega), if_neg hnz]
  · intro htyp
    have hne : ¬ t.header.typ = NLMSG_ERROR := by rw [htyp]; decide
    rw [hrun]
    simp only [exec_process]
    rw [if_neg (by simp [htseq]), if_neg (by simp [htpid]), if_neg hne, if_pos htyp]
  · intro hne hnd hpasses hflags
    rw [hrun]
    simp only [exec_process]
    rw [if_neg (by simp [htseq]), if_neg (by simp [htpid]), if_neg hne, if_neg hnd,
      if_neg (by simp [hpasses]), if_pos hflags]

theorem claim_C1_witness :
    (∀ m ∈ [(⟨⟨32, 16, 2, 1, 7⟩, [1, 2, 3, 4]⟩ : NetlinkMessage)],
        isTerminal none m = false) ∧
      exec_process 1 7 none []
          ([(⟨⟨32, 16, 2, 1, 7⟩, [1, 2, 3, 4]⟩ : NetlinkMessage)] ++
            (⟨⟨16, 3, 0, 1, 7⟩, []⟩ : NetlinkMessage) :: []) =
        ExecResult.ok
          ([(⟨⟨32, 16, 2, 1, 7⟩, [1, 2, 3, 4]⟩ : NetlinkMessage)].filter (passesFilter none)) :=
  ⟨by decide,
    (claim_C1 1 7 none [⟨⟨32, 16, 2, 1, 7⟩, [1, 2, 3, 4]⟩] [] ⟨⟨16, 3, 0, 1, 7⟩, []⟩
        (by decide) (by decide) rfl rfl (by decide)).2.2.1 rfl⟩

/-- Claim C10: every message constructed by `NetlinkMessage::new` and
modified only through `add_data` (with the length field never overflowing
`u32`) keeps `header.len = 16 + data.length` and `data.length % 4 = 0`;
consequently the "invalid message length" abort in `NetlinkHeader::to_bytes`
(len < 16) is unreachable on this path: serialization always produces
bytes. -/
theorem claim_C10 (m : NetlinkMessage) (hB : NetlinkMessage.Built m) :
    m.header.len = NetlinkHeader.size + m.data.length ∧ m.data.length % 4 = 0 ∧
      m.to_bytes ≠ none := by
  induction hB with
  | base typ flags =>
    refine ⟨rfl, rfl, ?_⟩
    intro hcon
    rw [(rfl : (NetlinkMessage.new typ flags).to_bytes =
      some (bytesOfNat 4 16 ++ bytesOfNat 2 typ ++ bytesOfNat 2 flags ++
        bytesOfNat 4 0 ++ bytesOfNat 4 0))] at hcon
    cases hcon
  | step m d hBm hd hlen ih =>
    obtain ⟨ih1, ih2, _⟩ := ih
    have ha4 := align_eq_align4 d.length hd
    have hge : d.length ≤ align d.length := by rw [ha4]; unfold align4; omega
    have hmod : align d.length % 4 = 0 := by rw [ha4]; unfold align4; omega
    have hdata_len : (m.add_data d).data.length = m.data.length + align d.length := by
      show (m.data ++ d ++ List.replicate (align d.length - d.length) 0).length =
        m.data.length + align d.length
      simp [List.length_append, List.length_replicate]
      omega
    have h32 : align d.length < 2 ^ 32 := by omega
    have hlen_eq : (m.add_data d).header.len = m.header.len + align d.length := by
      rw [NetlinkMessage.add_data_header_len_u32, Nat.mod_eq_of_lt h32, Nat.mod_eq_of_lt hlen]
    have h1 : (m.add_data d).header.len = NetlinkHeader.size + (m.add_data d).data.length := by
      rw [hlen_eq, hdata_len, ih1]
      omega
    refine ⟨h1, ?_, ?_⟩
    · rw [hdata_len]
      omega
    · have h16 : ¬ (m.add_data d).header.len < NetlinkHeader.size := by
        rw [h1]
        omega
      show (match (m.add_data d).header.to_bytes with
        | none => none
        | some hb => some (hb ++ (m.add_data d).data)) ≠ none
      rw [NetlinkHeader.to_bytes, if_neg h16]
      intro hcon
      cases hcon

theorem claim_C10_witness :
    ((NetlinkMessage.new 1 2).add_data [1, 2, 3]).header.len =
        NetlinkHeader.size + ((NetlinkMessage.new 1 2).add_data [1, 2, 3]).data.length ∧
      ((NetlinkMessage.new 1 2).add_data [1, 2, 3]).data.length % 4 = 0 ∧
      ((NetlinkMessage.new 1 2).add_data [1, 2, 3]).to_bytes ≠ none :=
  claim_C10 _
    (NetlinkMessage.Built.step (NetlinkMessage.new 1 2) [1, 2, 3]
      (NetlinkMessage.Built.base 1 2) (by decide) (by decide))

theorem headerBytesOf_length (h : NetlinkHeader) : (headerBytesOf h).length = 16 := by
  simp [headerBytesOf, bytesOfNat_length]

theorem NetlinkHeader.from_bytes_headerBytesOf (h : NetlinkHeader)
    (h1 : h.len < 2 ^ 32) (h2 : h.typ < 2 ^ 16) (h3 : h.flags < 2 ^ 16)
    (h4 : h.seq < 2 ^ 32) (h5 : h.pid < 2 ^ 32) :
    NetlinkHeader.from_bytes (headerBytesOf h) = Except.ok h := by
  show NetlinkHeader.from_bytes (bytesOfNat 4 h.len ++ bytesOfNat 2 h.typ ++
    bytesOfNat 2 h.flags ++ bytesOfNat 4 h.seq ++ bytesOfNat 4 h.pid) = Except.ok h
  rw [NetlinkHeader.from_bytes_chunks _ _ _ _ _ (bytesOfNat_length 4 h.len)
    (bytesOfNat_length 2 h.typ) (bytesOfNat_length 2 h.flags) (bytesOfNat_length 4 h.seq)
    (bytesOfNat_length 4 h.pid)]
  rw [natOfBytesLE_bytesOfNat_self 4 h.len (by norm_num at h1 ⊢; omega),
    natOfBytesLE_bytesOfNat_self 2 h.typ (by norm_num at h2 ⊢; omega),
    natOfBytesLE_bytesOfNat_self 2 h.flags (by norm_num at h3 ⊢; omega),
    natOfBytesLE_bytesOfNat_self 4 h.seq (by norm_num at h4 ⊢; omega),
    natOfBytesLE_bytesOfNat_self 4 h.pid (by norm_num at h5 ⊢; omega)]

theorem NetlinkMessage.to_bytes_eq (m : NetlinkMessage)
    (h16 : ¬ m.header.len < NetlinkHeader.size) :
    m.to_bytes = some (headerBytesOf m.header ++ m.data) := by
  show (match m.header.to_bytes with
    | none => none
    | some hb => some (hb ++ m.data)) = _
  rw [NetlinkHeader.to_bytes, if_neg h16]
  rfl

theorem align_add_multiple (a b : Nat) (ha : a % 4 = 0) (hab : a + b + 3 < 2 ^ 64) :
    align (a + b) = a + align b := by
  rw [align_eq_align4 (a + b) (by omega), align_eq_align4 b (by omega)]
  unfold align4
  omega

theorem padTo4_length (l : List Nat) (h : l.length + 3 < 2 ^ 64) :
    (padTo4 l).length = align l.length := by
  have ha := align_eq_align4 l.length h
  show (l ++ List.replicate (align l.length - l.length) 0).length = align l.length
  simp only [List.length_append, List.length_replicate]
  rw [ha]
  unfold align4
  omega

theorem from_bytes_go_step (v : List Nat) (fuel idx : Nat) (res : List NetlinkMessage)
    (m : NetlinkMessage) (hidx : idx < v.length)
    (hone : NetlinkMessage.one_from_bytes v idx = RustResult.ok m) :
    NetlinkMessage.from_bytes_go v (fuel + 1) idx res =
      NetlinkMessage.from_bytes_go v fuel (align (idx + m.header.len)) (res ++ [m]) := by
  simp only [NetlinkMessage.from_bytes_go]
  rw [if_pos hidx, hone]

theorem from_bytes_go_done (v : List Nat) (fuel idx : Nat) (res : List NetlinkMessage)
    (hidx : ¬ idx < v.length) :
    NetlinkMessage.from_bytes_go v (fuel + 1) idx res = RustResult.ok res := by
  simp only [NetlinkMessage.from_bytes_go]
  rw [if_neg hidx]

theorem one_from_bytes_encoded (v : List Nat) (idx : Nat) (m : NetlinkMessage) (tl : List Nat)
    (hw : m.header.len = 16 + m.data.length)
    (hl : m.header.len < 2 ^ 32) (ht : m.header.typ < 2 ^ 16) (hf : m.header.flags < 2 ^ 16)
    (hs : m.header.seq < 2 ^ 32) (hp : m.header.pid < 2 ^ 32)
    (hidx : idx ≤ v.length)
    (hdrop : v.drop idx = headerBytesOf m.header ++ (m.data ++ tl)) :
    NetlinkMessage.one_from_bytes v idx = RustResult.ok m := by
  have hsize : NetlinkHeader.size = 16 := rfl
  have hdl : (headerBytesOf m.header ++ (m.data ++ tl)).length = v.length - idx := by
    rw [← hdrop]
    exact List.length_drop idx v
  rw [List.length_append, List.length_append, headerBytesOf_length] at hdl
  have hvlen : v.length = idx + (16 + (m.data.length + tl.length)) := by omega
  have hc1 : ¬ v.length < idx + NetlinkHeader.size := by rw [hsize]; omega
  have hslice : sliceList v idx (idx + NetlinkHeader.size) = headerBytesOf m.header := by
    show (v.drop idx).take (idx + NetlinkHeader.size - idx) = _
    rw [hdrop, (by omega : idx + NetlinkHeader.size - idx = NetlinkHeader.size)]
    exact take_append_of_length _ (by rw [headerBytesOf_length, hsize])
  have hc2 : ¬ v.length < idx + m.header.len := by rw [hw]; omega
  have hc3 : ¬ idx + m.header.len < idx + NetlinkHeader.size := by rw [hsize]; omega
  have hdata : sliceList v (idx + NetlinkHeader.size) (idx + m.header.len) = m.data := by
    show (v.drop (idx + NetlinkHeader.size)).take (idx + m.header.len - (idx + NetlinkHeader.size)) = _
    have hdd : v.drop (idx + NetlinkHeader.size) = m.data ++ tl := by
      have hsplit : v.drop (idx + NetlinkHeader.size) = (v.drop idx).drop NetlinkHeader.size := by
        rw [List.drop_drop, Nat.add_comm]
      rw [hsplit, hdrop, drop_append_of_length _ (by rw [headerBytesOf_length, hsize])]
    rw [hdd, (by rw [hsize]; omega : idx + m.header.len - (idx + NetlinkHeader.size) = m.data.length)]
    exact take_append_of_length _ rfl
  simp only [NetlinkMessage.one_from_bytes, hslice,
    NetlinkHeader.from_bytes_headerBytesOf m.header hl ht hf hs hp, hdata,
    if_neg hc1, if_neg hc2, if_neg hc3]

/-- Claim C5: concatenating the encodings of two well-formed messages
(header `len` = 16 + payload length, fields in range of their widths), each
zero-extended to the 4-byte boundary, and decoding with
`NetlinkMessage::from_bytes` yields exactly the two original messages, in
order, with headers and payload bytes intact. -/
theorem claim_C5 (m1 m2 : NetlinkMessage) (b1 b2 : List Nat)
    (hw1 : m1.header.len = 16 + m1.data.length) (hw2 : m2.header.len = 16 + m2.data.length)
    (hl1 : m1.header.len < 2 ^ 32) (ht1 : m1.header.typ < 2 ^ 16) (hf1 : m1.header.flags < 2 ^ 16)
    (hs1 : m1.header.seq < 2 ^ 32) (hp1 : m1.header.pid < 2 ^ 32)
    (hl2 : m2.header.len < 2 ^ 32) (ht2 : m2.header.typ < 2 ^ 16) (hf2 : m2.header.flags < 2 ^ 16)
    (hs2 : m2.header.seq < 2 ^ 32) (hp2 : m2.header.pid < 2 ^ 32)
    (hb1 : m1.to_bytes = some b1) (hb2 : m2.to_bytes = some b2) :
    NetlinkMessage.from_bytes (padTo4 b1 ++ padTo4 b2) = RustResult.ok [m1, m2] := by
  have hsize : NetlinkHeader.size = 16 := rfl
  have hb1e : b1 = headerBytesOf m1.header ++ m1.data := by
    have h := NetlinkMessage.to_bytes_eq m1 (by rw [hsize]; omega)
    rw [hb1] at h
    injection h with h
  have hb2e : b2 = headerBytesOf m2.header ++ m2.data := by
    have h := NetlinkMessage.to_bytes_eq m2 (by rw [hsize]; omega)
    rw [hb2] at h
    injection h with h
  have hlb1 : b1.length = m1.header.len := by
    rw [hb1e, List.length_append, headerBytesOf_length, hw1]
  have hlb2 : b2.length = m2.header.len := by
    rw [hb2e, List.length_append, headerBytesOf_length, hw2]
  have hP1 : (padTo4 b1).length = align m1.header.len := by
    rw [padTo4_length b1 (by omega), hlb1]
  have hP2 : (padTo4 b2).length = align m2.header.len := by
    rw [padTo4_length b2 (by omega), hlb2]
  have ha1 := align_eq_align4 m1.header.len (by omega)
  have ha2 := align_eq_align4 m2.header.len (by omega)
  have hmod1 : align m1.header.len % 4 = 0 := by rw [ha1]; unfold align4; omega
  have hge1 : m1.header.len ≤ align m1.header.len := by rw [ha1]; unfold align4; omega
  have hge2 : m2.header.len ≤ align m2.header.len := by rw [ha2]; unfold align4; omega
  have hub1 : align m1.header.len ≤ m1.header.len + 3 := by rw [ha1]; unfold align4; omega
  set v := padTo4 b1 ++ padTo4 b2 with hv
  have hvlen : v.length = align m1.header.len + align m2.header.len := by
    rw [hv, List.length_append, hP1, hP2]
  have hdrop0 : v.drop 0 = headerBytesOf m1.header ++ (m1.data ++
      (List.replicate (align b1.length - b1.length) 0 ++ padTo4 b2)) := by
    rw [List.drop_zero, hv]
    show (b1 ++ List.replicate (align b1.length - b1.length) 0) ++ padTo4 b2 = _
    rw [hb1e]
    simp [List.append_assoc]
  have hone1 : NetlinkMessage.one_from_bytes v 0 = RustResult.ok m1 :=
    one_from_bytes_encoded v 0 m1 _ hw1 hl1 ht1 hf1 hs1 hp1 (by omega) hdrop0
  have hdropL : v.drop (align m1.header.len) = headerBytesOf m2.header ++
      (m2.data ++ List.replicate (align b2.length - b2.length) 0) := by
    rw [hv, drop_append_of_length _ hP1]
    show b2 ++ List.replicate (align b2.length - b2.length) 0 = _
    rw [hb2e]
    simp [List.append_assoc]
  have hidxlt : align m1.header.len < v.length := by omega
  have hone2 : NetlinkMessage.one_from_bytes v (align m1.header.len) = RustResult.ok m2 :=
    one_from_bytes_encoded v (align m1.header.len) m2 _ hw2 hl2 ht2 hf2 hs2 hp2
      (by omega) hdropL
  show NetlinkMessage.from_bytes v = RustResult.ok [m1, m2]
  simp only [NetlinkMessage.from_bytes]
  rw [from_bytes_go_step v v.length 0 [] m1 (by omega) hone1]
  simp only [Nat.zero_add, List.nil_append]
  rw [(by omega : v.length = (v.length - 1) + 1)]
  rw [from_bytes_go_step v (v.length - 1) (align m1.header.len) [m1] m2 hidxlt hone2]
  have hidx2 : align (align m1.header.len + m2.header.len) = v.length := by
    rw [align_add_multiple (align m1.header.len) m2.header.len hmod1 (by omega), hvlen]
  rw [hidx2, (by omega : v.length - 1 = (v.length - 2) + 1)]
  rw [from_bytes_go_done v (v.length - 2) v.length ([m1] ++ [m2]) (by omega)]
  rfl

theorem claim_C5_witness :
    ((⟨⟨20, 1, 2, 3, 4⟩, [9, 9, 9, 9]⟩ : NetlinkMessage).to_bytes =
        some [20, 0, 0, 0, 1, 0, 2, 0, 3, 0, 0, 0, 4, 0, 0, 0, 9, 9, 9, 9]) ∧
      ((⟨⟨17, 5, 6, 7, 8⟩, [1]⟩ : NetlinkMessage).to_bytes =
        some [17, 0, 0, 0, 5, 0, 6, 0, 7, 0, 0, 0, 8, 0, 0, 0, 1]) ∧
      NetlinkMessage.from_bytes
          (padTo4 [20, 0, 0, 0, 1, 0, 2, 0, 3, 0, 0, 0, 4, 0, 0, 0, 9, 9, 9, 9] ++
            padTo4 [17, 0, 0, 0, 5, 0, 6, 0, 7, 0, 0, 0, 8, 0, 0, 0, 1]) =
        RustResult.ok [⟨⟨20, 1, 2, 3, 4⟩, [9, 9, 9, 9]⟩, ⟨⟨17, 5, 6, 7, 8⟩, [1]⟩] :=
  ⟨rfl, rfl,
    claim_C5 ⟨⟨20, 1, 2, 3, 4⟩, [9, 9, 9, 9]⟩ ⟨⟨17, 5, 6, 7, 8⟩, [1]⟩
      [20, 0, 0, 0, 1, 0, 2, 0, 3, 0, 0, 0, 4, 0, 0, 0, 9, 9, 9, 9]
      [17, 0, 0, 0, 5, 0, 6, 0, 7, 0, 0, 0, 8, 0, 0, 0, 1]
      rfl rfl (by norm_num) (by norm_num) (by norm_num) (by norm_num) (by norm_num)
      (by norm_num) (by norm_num) (by norm_num) (by norm_num) (by norm_num) rfl rfl⟩
